import Mathlib

/-!
Verification development for the selective drop orchestrator of
`src/dlt/pipeline/helpers.py` (class `DropCommand` and the `drop` helper).

The Python module is embedded shallowly:

* pure planning code (`DropCommand.__init__`, `_create_modified_state`,
  `_delete_pipeline_tables`) becomes pure Lean functions;
* the effectful orchestration (`DropCommand.__call__` and the private
  `_drop_*` methods) becomes explicit state passing over a `World` record
  holding the pipeline, the destination catalog and the load storage;
* Python exceptions become an `Option DropError` component of the result.

Collaborators that live outside the visible module
(`dlt.common.schema.utils`, `dlt.common.jsonpath`, `dlt.common.pipeline`,
the `Pipeline`/destination client methods) are modelled from the spec's
contracts; each such definition carries a doc comment starting with
`Modelled from the spec:`.
-/

/-- A nested state value: the JSON-like trees stored in the pipeline state.
Leaves carry an opaque payload string; inner nodes are ordered key/value
mappings (Python `dict`s, whose key order is insertion order). -/
inductive StateVal where
  | leaf : String → StateVal
  | node : List (String × StateVal) → StateVal

/-- A concrete state path: the list of keys of a dotted path such as
`config.token` (= `["config", "token"]`). -/
abbrev StatePath := List String

/-- Render a concrete path back to its dotted string form, as used when the
command records `f"{source_name}.{p}"` in its info summary (line 130). -/
def pathStr (p : StatePath) : String := String.intercalate "." p

/-- Look a concrete path up in a state tree; `none` when absent. -/
def getPathAux : StatePath → StateVal → Option StateVal
  | [], v => some v
  | _ :: _, .leaf _ => none
  | k :: rest, .node fs =>
    match fs.lookup k with
    | some w => getPathAux rest w
    | none => none

/-- Dot-notation wrapper for `getPathAux`. -/
def StateVal.getPath (v : StateVal) (p : StatePath) : Option StateVal := getPathAux p v

/-- Remove a key from the field list of a node (Python `dict` deletion;
keys are unique in a `dict`, so filtering removes exactly that entry). -/
def removeField (fs : List (String × StateVal)) (k : String) : List (String × StateVal) :=
  fs.filter (fun kv => kv.1 ≠ k)

/-- Modelled from the spec: `compile(paths) -> CompiledPaths` of the Path
Selector (§4.2, `dlt.common.jsonpath.compile_paths`).  Raw dotted path
strings are compiled into concrete key lists.  `splitCharsAux` splits a
character list at dots, accumulating the current segment reversed. -/
def splitCharsAux : List Char → List Char → List String
  | [], acc => [String.mk acc.reverse]
  | c :: cs, acc =>
    if c = '.' then String.mk acc.reverse :: splitCharsAux cs []
    else splitCharsAux cs (c :: acc)

/-- Split a dotted path string at the dots (the structural-recursion
equivalent of splitting on `"."`). -/
def splitDots (s : String) : List String := splitCharsAux s.data []

def compile_paths (ps : List String) : List StatePath :=
  ps.map splitDots

/-- Modelled from the spec: `resolve(compiled, tree)` of the Path Selector
(§4.2, `dlt.common.jsonpath.resolve_paths`): returns every concrete path
present in the tree that is matched by a compiled expression, de-duplicated;
resolving against an empty or absent sub-tree yields an empty list. -/
def resolve_paths (paths : List StatePath) (tree : StateVal) : List StatePath :=
  (paths.filter (fun p => (tree.getPath p).isSome)).eraseDups

/-- Delete the node addressed by a concrete path from a state tree.
Modelled from the spec: §4.5 `deletePaths` — removes exactly the addressed
node; deleting a path whose parent no longer exists is a no-op. -/
def deletePathAux : StatePath → StateVal → StateVal
  | _, .leaf s => .leaf s
  | [], v => v
  | [k], .node fs => .node (removeField fs k)
  | k :: k2 :: rest, .node fs =>
    .node (fs.map (fun kv => if kv.1 = k then (kv.1, deletePathAux (k2 :: rest) kv.2) else kv))

/-- Dot-notation wrapper for `deletePathAux`. -/
def StateVal.deletePath (v : StateVal) (p : StatePath) : StateVal := deletePathAux p v

/-- Modelled from the spec: `_delete_source_state_keys` of
`dlt.common.pipeline` — removes each resolved path's node from the source's
state node (§4.5). -/
def deleteSourceStateKeys (paths : List StatePath) (node : StateVal) : StateVal :=
  paths.foldl (fun acc p => acc.deletePath p) node

/-- Modelled from the spec: a compiled resource-name pattern
(`compile_simple_regexes` of `dlt.common.schema.utils`, §4.1).  The compiled
pattern is the selector set itself and matching is exact-name membership;
an empty selector set compiles to a pattern that matches nothing. -/
def compile_simple_regexes (rs : List String) : List String := rs

/-- Modelled from the spec: matching a resource name against a compiled
pattern (§4.1). -/
def patternMatch (pat : List String) (r : String) : Bool := pat.contains r

/-- Modelled from the spec: `_get_matching_resources` of
`dlt.common.pipeline` (§4.1 `matchStateKeys`): the resource keys present in
a source's state node whose name matches the pattern. -/
def getMatchingResources (pat : List String) (node : StateVal) : List String :=
  match node with
  | .node fs => (fs.map Prod.fst).filter (fun k => patternMatch pat k)
  | .leaf _ => []

/-- Modelled from the spec: `_reset_resource_state` of
`dlt.common.pipeline` (§4.5 `resetResourceState`): removes the entire
sub-tree of that resource key from the source's state node, leaving sibling
resources untouched. -/
def resetResourceState (key : String) (node : StateVal) : StateVal :=
  match node with
  | .node fs => .node (removeField fs key)
  | .leaf s => .leaf s

/-- Apply all pattern-matching resource resets to a source's state node
(the inner loop of `_create_modified_state`, lines 125-127). -/
def resetMatching (pat : List String) (node : StateVal) : StateVal :=
  (getMatchingResources pat node).foldl (fun n k => resetResourceState k n) node

/-- A schema table.  Modelled from the spec §3: identified by a unique name,
tagged with an owning resource name (absent on derived child tables), and
optionally pointing at a parent table. -/
structure Table where
  name : String
  resource : Option String
  parent : Option String
deriving DecidableEq, Repr

/-- A schema: a named, versioned collection of tables (spec §3). -/
structure Schema where
  name : String
  tables : List Table
  version : Nat
deriving DecidableEq, Repr

/-- Modelled from the spec: `Schema.clone()` (§6) — an explicit copy whose
mutation does not affect the live schema.  In the pure embedding values are
immutable, so the clone is the value itself. -/
def Schema.clone (s : Schema) : Schema := s

/-- Modelled from the spec: `get_child_tables` of
`dlt.common.schema.utils` — the parent-first chain of tables hanging off a
given table name, via the `parent` links (§3).  `fuel` bounds the recursion
depth; callers pass the number of tables, which covers every acyclic
hierarchy. -/
def childChain (tables : List Table) : Nat → String → List Table
  | 0, _ => []
  | fuel + 1, n =>
    (tables.filter (fun t => t.parent == some n)).flatMap
      (fun c => c :: childChain tables fuel c.name)

/-- Modelled from the spec: the table together with all its descendants, the
table itself first (parent before child). -/
def get_child_tables (tables : List Table) (t : Table) : List Table :=
  t :: childChain tables tables.length t.name

/-- Insert a group into a grouping assoc list: extend the existing entry of
that resource, else append a new entry (Python `dict.setdefault(...).extend`,
which preserves first-insertion order of keys). -/
def insertGroup : List (String × List Table) → String → List Table → List (String × List Table)
  | [], r, ts => [(r, ts)]
  | (k, v) :: rest, r, ts =>
    if k = r then (k, v ++ ts) :: rest else (k, v) :: insertGroup rest r ts

/-- One grouping step: a table owned by a matching resource contributes its
child chain to that resource's group; other tables contribute nothing. -/
def groupStep (tables : List Table) (pat : List String)
    (acc : List (String × List Table)) (t : Table) : List (String × List Table) :=
  match t.resource with
  | none => acc
  | some r =>
    if patternMatch pat r then insertGroup acc r (get_child_tables tables t) else acc

/-- Modelled from the spec: `group_tables_by_resource` of
`dlt.common.schema.utils` (§4.1 `match`): groups only tables whose owning
resource name matches the pattern, each group holding the root table and its
child chain; resources with no matching table are omitted. -/
def group_tables_by_resource (tables : List Table) (pat : List String) :
    List (String × List Table) :=
  tables.foldl (groupStep tables pat) []

/-- The planned drop list: all matched groups chained together and reversed
(`__init__` lines 83-84), so children/derived tables precede their parents. -/
def planTables (tables : List Table) (pat : List String) : List Table :=
  ((group_tables_by_resource tables pat).map Prod.snd).flatten.reverse

/-- The pipeline state: the `sources` section of `TSourceState`, a mapping
from source name to that source's nested state node (spec §3; only the
`sources` section is read or written by the drop command, via
`sources_state`). -/
structure TSourceState where
  sources : List (String × StateVal)

/-- Modelled from the spec: the `Pipeline` collaborator surface consumed by
the drop command (§6).  `state` is the value of the current state tree;
reading it through the `state` property yields a working copy, so pure
functions over this value model mutation of that copy. -/
structure Pipeline where
  schemas : List (String × Schema)
  default_schema_name : String
  dataset_name : String
  pipeline_name : String
  pipelines_dir : String
  state : TSourceState
  has_pending_data : Bool

/-- The `resources` / `state_paths` arguments accept either a single string
or a collection of strings (`__init__` lines 68-71 wrap a bare string into a
one-element list). -/
inductive StrOrList where
  | str : String → StrOrList
  | list : List String → StrOrList
deriving DecidableEq, Repr

/-- Normalisation performed at the top of `__init__` (lines 68-71). -/
def StrOrList.toList : StrOrList → List String
  | .str s => [s]
  | .list l => l

/-- The `_DropInfo` summary record (lines 46-54). -/
structure DropInfo where
  tables : List String
  resource_states : List String
  resource_names : List String
  state_paths : List String
  schema_name : String
  dataset_name : String
  drop_all : Bool
  resource_pattern : Option (List String)
deriving DecidableEq, Repr

/-- Result of `_create_modified_state`: the new state value plus the
`resource_states` and `state_paths` info entries appended during the loop. -/
structure ModResult where
  state : TSourceState
  resource_states : List String
  state_paths : List String

/-- One iteration of the `_create_modified_state` loop (lines 123-130): for
one source, reset every matching resource key (when state wipe is active),
then resolve the path selector against the node and delete the resolved
paths, appending the info entries. -/
def modifyStep (pat : Option (List String)) (skip : Bool) (paths : List StatePath)
    (acc : List (String × StateVal) × List String × List String) (src : String × StateVal) :
    List (String × StateVal) × List String × List String :=
  let keys := if skip then [] else getMatchingResources (pat.getD []) src.2
  let node1 := keys.foldl (fun n k => resetResourceState k n) src.2
  let resolved := resolve_paths paths node1
  let node2 := deleteSourceStateKeys resolved node1
  (acc.1 ++ [(src.1, node2)], acc.2.1 ++ keys,
    acc.2.2 ++ resolved.map (fun q => src.1 ++ "." ++ pathStr q))

/-- `_create_modified_state` (lines 118-131), as a pure function from the
working copy of the pipeline state to the modified copy plus info entries.
The `drop_state` guard mirrors lines 120-121 (at the call site in
`__init__` the flag is still `true`, having been set at line 75). -/
def createModifiedState (drop_state : Bool) (pat : Option (List String)) (skip : Bool)
    (paths : List StatePath) (st : TSourceState) : ModResult :=
  if drop_state = false then ⟨st, [], []⟩
  else
    let r := st.sources.foldl (modifyStep pat skip paths) ([], [], [])
    ⟨⟨r.1⟩, r.2.1, r.2.2⟩

/-- The planned drop command: the fields assigned by `__init__`
(lines 57-104). -/
structure DropCommand where
  schema : Schema
  drop_tables : Bool
  drop_state : Bool
  resource_pattern : Option (List String)
  tables_to_drop : List Table
  skip_state_wipe : Bool
  state_paths_to_drop : List StatePath
  drop_all : Bool
  info : DropInfo
  new_state : TSourceState

/-- The body of `__init__` (lines 67-104) once the schema has been found:
plan tables from the resource selector, compile the state paths, build the
info summary and compute the modified state working copy.  Converting the
resource collection to a Python `set` only de-duplicates it, which neither
membership matching nor the emptiness test observes, so the list is kept. -/
def buildCmd (p : Pipeline) (resources : StrOrList) (state_paths : StrOrList)
    (drop_all skip_state_wipe : Bool) (schema0 : Schema) : DropCommand :=
  let schema := schema0.clone
  let rs := resources.toList
  -- lines 79-89: `drop_tables` starts `True` (line 75) and is cleared when
  -- no resources were selected (line 89).
  let resource_pattern : Option (List String) :=
    if rs.isEmpty then none else some (compile_simple_regexes rs)
  let tables_to_drop : List Table :=
    match resource_pattern with
    | some pat => planTables schema.tables pat
    | none => []
  let drop_tables := resource_pattern.isSome
  let resource_names : List String :=
    match resource_pattern with
    | some pat => (group_tables_by_resource schema.tables pat).map Prod.fst
    | none => []
  -- line 91
  let skip := skip_state_wipe || resource_pattern.isNone
  -- line 93
  let compiled := compile_paths state_paths.toList
  -- line 102 (`drop_state` is still `true` there)
  let modRes := createModifiedState true resource_pattern skip compiled p.state
  -- lines 103-104
  let drop_state := !(skip && compiled.isEmpty)
  { schema := schema
    drop_tables := drop_tables
    drop_state := drop_state
    resource_pattern := resource_pattern
    tables_to_drop := tables_to_drop
    skip_state_wipe := skip
    state_paths_to_drop := compiled
    drop_all := drop_all
    info :=
      { tables := tables_to_drop.map Table.name
        resource_states := modRes.resource_states
        resource_names := resource_names
        state_paths := modRes.state_paths
        schema_name := schema.name
        dataset_name := p.dataset_name
        drop_all := drop_all
        resource_pattern := resource_pattern }
    new_state := modRes.state }

/-- `DropCommand.__init__` (lines 57-104).  The schema lookup
`pipeline.schemas[schema_name or pipeline.default_schema_name]` raises on a
missing key, rendered as `none`. -/
def DropCommand.init (pipeline : Pipeline) (resources : StrOrList)
    (schema_name : Option String) (state_paths : StrOrList)
    (drop_all skip_state_wipe : Bool) : Option DropCommand :=
  (pipeline.schemas.lookup (schema_name.getD pipeline.default_schema_name)).map
    (buildCmd pipeline resources state_paths drop_all skip_state_wipe)

/-- Errors raised by `__call__`: the blocking precondition error
`PipelineHasPendingDataException` (line 147, carrying the pipeline name and
pipelines directory) and an error propagated out of the forced load step
(lines 163-168). -/
inductive DropError where
  | pendingData : String → String → DropError
  | loadFailed : DropError
deriving DecidableEq, Repr

/-- Modelled from the spec: the observable state of the three stores the
orchestrator coordinates (§1) — the pipeline object (with its live state
tree), the destination catalog, the saved schema store and the local load
storage — plus `loadShouldFail`, the environment's choice of whether the
forced load step raises (§4.6 failure transition). -/
structure World where
  pipeline : Pipeline
  /-- names of the tables existing in the destination dataset -/
  destTables : List String
  /-- the destination gateway's `drop_dataset` was issued -/
  destDatasetDropped : Bool
  /-- `pipeline.drop()` was issued (the pipeline's own catalog metadata
  was reset) -/
  localDropped : Bool
  /-- `pipeline.sync_destination()` was issued -/
  syncedDestination : Bool
  /-- the schema most recently written via `schemas.save_schema` -/
  savedSchema : Option Schema
  /-- `pipeline.normalize()` was issued -/
  normalized : Bool
  /-- `pipeline.load(...)` completed successfully -/
  loaded : Bool
  /-- count of locally staged normalized packages -/
  stagedPackages : Nat
  /-- whether the forced load step raises -/
  loadShouldFail : Bool

/-- `_delete_pipeline_tables` (lines 110-113): delete each planned table
from the cloned schema's table collection, then bump the version once. -/
def DropCommand.deletePipelineTables (c : DropCommand) : Schema :=
  let tables := c.tables_to_drop.foldl (fun ts t => ts.filter (fun x => x.name ≠ t.name)) c.schema.tables
  { c.schema with tables := tables, version := c.schema.version + 1 }

/-- `_drop_destination_tables` (lines 106-108).  Modelled from the spec: the
destination client's `drop_tables(*names)` removes exactly the named tables
from the destination dataset (§6). -/
def DropCommand.dropDestinationTables (c : DropCommand) (w : World) : World :=
  { w with destTables :=
      w.destTables.filter (fun n => !((c.tables_to_drop.map Table.name).contains n)) }

/-- `_drop_state_keys` (lines 133-137).  Modelled from the spec: the managed
state handle is cleared and replaced wholesale by the modified working copy
(§5 `State Mutator`, §9 scoped state replacement). -/
def DropCommand.dropStateKeys (c : DropCommand) (w : World) : World :=
  { w with pipeline := { w.pipeline with state := c.new_state } }

/-- `_drop_all` (lines 139-143).  Modelled from the spec: the destination
gateway's `drop_dataset` removes the whole dataset, `pipeline.drop()` resets
the pipeline's own catalog metadata, and `sync_destination` resynchronizes
(§4.6 drop_all path). -/
def DropCommand.dropAllOp (_c : DropCommand) (w : World) : World :=
  { w with destTables := [], destDatasetDropped := true, localDropped := true,
           syncedDestination := true }

/-- `DropCommand.__call__` (lines 145-168): precondition check, the
`drop_all` path, the nothing-to-drop short circuit, then the selective
path — schema mutation plus destination drops, state replacement, schema
save, and the forced normalize+load with package cleanup on load failure. -/
def DropCommand.call (c : DropCommand) (w : World) : World × Option DropError :=
  if w.pipeline.has_pending_data then
    (w, some (.pendingData w.pipeline.pipeline_name w.pipeline.pipelines_dir))
  else if c.drop_all then
    (c.dropAllOp w, none)
  else if !c.drop_state && !c.drop_tables then
    (w, none)
  else
    let w1 := if c.drop_tables then c.dropDestinationTables w else w
    let w2 := if c.drop_state then c.dropStateKeys w1 else w1
    let w3 := if c.drop_tables then { w2 with savedSchema := some c.deletePipelineTables } else w2
    let w4 := { w3 with normalized := true, stagedPackages := w3.stagedPackages + 1 }
    if w4.loadShouldFail then
      ({ w4 with stagedPackages := 0 }, some .loadFailed)
    else
      ({ w4 with loaded := true, stagedPackages := 0 }, none)

/-- The module-level `drop` helper (lines 171-179): construct the command
and invoke it at once. -/
def drop (pipeline : Pipeline) (resources : StrOrList) (schema_name : Option String)
    (state_paths : StrOrList) (drop_all skip_state_wipe : Bool) (w : World) :
    Option (World × Option DropError) :=
  (DropCommand.init pipeline resources schema_name state_paths drop_all skip_state_wipe).map
    (fun c => c.call w)

/-- A table is owned by a resource matching the pattern: it is a matching
root table of the schema, or belongs to the child chain of one (spec §3:
child tables are included whenever their parent resource is selected). -/
def ownedByMatching (tables : List Table) (pat : List String) (x : Table) : Prop :=
  ∃ t r, t ∈ tables ∧ t.resource = some r ∧ patternMatch pat r = true ∧
    x ∈ get_child_tables tables t

/-- Every table's parent, when it has one, still appears among the names of
the *later* entries: scanning the list left to right and dropping each
table, a child is always dropped while its parent is still pending.  The
`pending` parameter accumulates names considered still present after the
list ends. -/
def parentsFollowAux (pending : List String) : List Table → Prop
  | [] => True
  | t :: rest =>
    (∀ pn, t.parent = some pn → pn ∈ rest.map Table.name ++ pending) ∧
      parentsFollowAux pending rest

/-- Reverse dependency order: every table's parent appears later in the
list (children and derived tables precede the tables they depend on). -/
def parentsFollow (l : List Table) : Prop := parentsFollowAux [] l

/-- Dual bookkeeping notion used to reason about the parent-first grouped
list before it is reversed: every table's parent appears among the names
already `seen` (earlier entries, accumulated front-first). -/
def parentsBefore (seen : List String) : List Table → Prop
  | [] => True
  | t :: rest => (∀ pn, t.parent = some pn → pn ∈ seen) ∧ parentsBefore (t.name :: seen) rest

/-- The planned table list is exactly the matching-resource-owned tables, in
reverse dependency order. -/
def planCharacterization (c : DropCommand) (pat : List String) : Prop :=
  (∀ x, x ∈ c.tables_to_drop ↔ ownedByMatching c.schema.tables pat x) ∧
    parentsFollow c.tables_to_drop

/-- Schema sanity check used for the ordering statement: root tables (those
tagged with an owning resource) are not themselves child tables. -/
def rootsOkB (ts : List Table) : Bool :=
  ts.all (fun t => t.resource.isNone || t.parent.isNone)

/-- A source node after the state-drop transformation as the code performs
it: first reset every matching resource key (unless the wipe is skipped),
then resolve the path selector against the *already-reset* node and delete
the resolved paths from it. -/
def nodeAfterStateDrop (pat : Option (List String)) (skip : Bool) (paths : List StatePath)
    (node : StateVal) : StateVal :=
  let node1 := if skip then node else resetMatching (pat.getD []) node
  deleteSourceStateKeys (resolve_paths paths node1) node1

/-- The paths the code records for one source: resolved against the node
*after* the resource-state resets were applied to it. -/
def resolvedAfterReset (pat : Option (List String)) (skip : Bool) (paths : List StatePath)
    (node : StateVal) : List StatePath :=
  resolve_paths paths (if skip then node else resetMatching (pat.getD []) node)

/-- Per-source characterisation of `_create_modified_state`: the new state
maps each source to `nodeAfterStateDrop` of its old node; the recorded state
paths are the source-qualified paths resolved against each post-reset node;
the recorded resource states are the matching keys of each original node. -/
def modifiedStateSpec (c : DropCommand) (st : TSourceState) : Prop :=
  c.new_state.sources = st.sources.map (fun src =>
      (src.1, nodeAfterStateDrop c.resource_pattern c.skip_state_wipe c.state_paths_to_drop src.2))
  ∧ c.info.state_paths = (st.sources.map (fun src =>
      (resolvedAfterReset c.resource_pattern c.skip_state_wipe c.state_paths_to_drop src.2).map
        (fun q => src.1 ++ "." ++ pathStr q))).flatten
  ∧ c.info.resource_states = (st.sources.map (fun src =>
      if c.skip_state_wipe then [] else
        getMatchingResources (c.resource_pattern.getD []) src.2)).flatten

/-- The claim's reading of `_create_modified_state`: the recorded state
paths are resolved against each source's *original* node, before any
resource-state reset touches it. -/
def resolvedAgainstOriginal (c : DropCommand) (st : TSourceState) : Prop :=
  c.info.state_paths = (st.sources.map (fun src =>
      (resolve_paths c.state_paths_to_drop src.2).map
        (fun q => src.1 ++ "." ++ pathStr q))).flatten

/-- The claim's reading of the `drop_state` flag: true iff a resource-state
reset or a resolved state path was recorded, or a state wipe was requested
(`skip_state_wipe` not passed) together with a non-empty resource
selector. -/
def dropStateClaim (c : DropCommand) (res : StrOrList) (ssw : Bool) : Prop :=
  c.drop_state = true ↔
    (c.info.resource_states ≠ [] ∨ c.info.state_paths ≠ [] ∨
      (ssw = false ∧ res.toList ≠ []))

/-- The flag as the code computes it: true iff the *compiled* state-path
set is non-empty, or the wipe is active (not skipped, non-empty selector). -/
def dropStateAmended (c : DropCommand) (res sp : StrOrList) (ssw : Bool) : Prop :=
  c.drop_state = true ↔ (sp.toList ≠ [] ∨ (ssw = false ∧ res.toList ≠ []))

/-- Placeholder command used only as the `Option.getD` default when reading
back a concretely computed command. -/
def dummyCmd : DropCommand :=
  ⟨⟨"", [], 0⟩, false, false, none, [], false, [], false,
    ⟨[], [], [], [], "", "", false, none⟩, ⟨[]⟩⟩

/-- Scenario A fixture: table `users` owned by resource `users`. -/
def usersTable : Table := ⟨"users", some "users", none⟩

/-- Scenario A fixture: child table `users__addresses` of `users`. -/
def addressesTable : Table := ⟨"users__addresses", none, some "users"⟩

/-- Scenario A fixture schema. -/
def schemaA : Schema := ⟨"schA", [usersTable, addressesTable], 5⟩

/-- Fixture state: one source with a `users` resource node and an unrelated
`config` section. -/
def stateA : TSourceState :=
  ⟨[("src1", .node [("users", .node [("cursor", .leaf "42")]),
                    ("config", .node [("token", .leaf "tok")])])]⟩

/-- Scenario A fixture pipeline (no pending data). -/
def pipeA : Pipeline := ⟨[("schA", schemaA)], "schA", "dsA", "pipeA", "/pipes", stateA, false⟩

/-- The same pipeline but reporting pending unflushed data. -/
def pipePending : Pipeline :=
  ⟨[("schA", schemaA)], "schA", "dsA", "pipeA", "/pipes", stateA, true⟩

/-- A fresh world around a pipeline: destination holds both tables, nothing
dropped, saved or staged yet. -/
def mkWorld (p : Pipeline) (fail : Bool) : World :=
  ⟨p, ["users", "users__addresses"], false, false, false, none, false, false, 0, fail⟩

/-- Scenario A command: selector `{"users"}`, no state paths. -/
def cmdA : DropCommand :=
  (DropCommand.init pipeA (.list ["users"]) none (.list []) false false).getD dummyCmd

/-- Command with selector `{"users"}` and a state path, used for the
working-copy witness. -/
def cmdState : DropCommand :=
  (DropCommand.init pipeA (.list ["users"]) none (.list ["config.token"]) false false).getD dummyCmd

/-- Command built on the pending-data pipeline. -/
def cmdPending : DropCommand :=
  (DropCommand.init pipePending (.list ["users"]) none (.list []) false false).getD dummyCmd

/-- Fixture for the resolve-order counterexample: the selected resource
`r1` also contains the node addressed by the state path `r1.cursor`. -/
def stateC : TSourceState := ⟨[("s", .node [("r1", .node [("cursor", .leaf "7")])])]⟩

/-- Pipeline for the resolve-order counterexample. -/
def pipeC : Pipeline := ⟨[("schA", schemaA)], "schA", "dsC", "pipeC", "/pipes", stateC, false⟩

/-- Command whose state path points inside the resource being wiped. -/
def cmdC : DropCommand :=
  (DropCommand.init pipeC (.list ["r1"]) none (.list ["r1.cursor"]) false false).getD dummyCmd

/-- Fixture for the `drop_state` counterexample: empty selector, one state
path that resolves nowhere. -/
def pipeD : Pipeline :=
  ⟨[("schA", schemaA)], "schA", "dsD", "pipeD", "/pipes", ⟨[("s", .node [])]⟩, false⟩

/-- Command with an empty selector and an unresolvable state path. -/
def cmdD : DropCommand :=
  (DropCommand.init pipeD (.list []) none (.list ["a"]) false false).getD dummyCmd

/-- Command with an empty selector and Scenario D's `config.token` path. -/
def cmdEmptySel : DropCommand :=
  (DropCommand.init pipeA (.list []) none (.list ["config.token"]) false false).getD dummyCmd

/-- Two drop-all commands over the same pipeline with different (ignored)
selector arguments. -/
def cmdAll1 : DropCommand :=
  (DropCommand.init pipeA (.list ["users"]) none (.list []) true false).getD dummyCmd

/-- Second drop-all command, different selectors and state paths. -/
def cmdAll2 : DropCommand :=
  (DropCommand.init pipeA (.list []) none (.list ["config.token"]) true true).getD dummyCmd

theorem init_some (p : Pipeline) (res : StrOrList) (sn : Option String) (sp : StrOrList)
    (da ssw : Bool) (c : DropCommand)
    (h : DropCommand.init p res sn sp da ssw = some c) :
    ∃ s0, p.schemas.lookup (sn.getD p.default_schema_name) = some s0 ∧
      c = buildCmd p res sp da ssw s0 := by
  unfold DropCommand.init at h
  rcases Option.map_eq_some'.mp h with ⟨s0, hs, hc⟩
  exact ⟨s0, hs, hc.symm⟩

/-- C2: whenever the pipeline reports pending unflushed data, invoking the
command raises `PipelineHasPendingDataException` (with the pipeline name and
pipelines directory) and the whole world — schema store, state tree and
destination — is left exactly as it was: the check precedes any mutation. -/
theorem pending_data_blocks (c : DropCommand) (w : World)
    (h : w.pipeline.has_pending_data = true) :
    c.call w = (w, some (.pendingData w.pipeline.pipeline_name w.pipeline.pipelines_dir)) := by
  unfold DropCommand.call
  simp [h]

theorem pending_data_blocks_witness :
    (mkWorld pipePending false).pipeline.has_pending_data = true ∧
      cmdPending.call (mkWorld pipePending false) =
        (mkWorld pipePending false,
          some (.pendingData (mkWorld pipePending false).pipeline.pipeline_name
            (mkWorld pipePending false).pipeline.pipelines_dir)) :=
  ⟨rfl, pending_data_blocks cmdPending (mkWorld pipePending false) rfl⟩

theorem mem_foldl_filter_name (drops : List Table) :
    ∀ (ts : List Table) (x : Table),
      x ∈ drops.foldl (fun ts t => ts.filter (fun x => x.name ≠ t.name)) ts ↔
        x ∈ ts ∧ ∀ d ∈ drops, x.name ≠ d.name := by
  induction drops with
  | nil => simp
  | cons d drops ih =>
    intro ts x
    rw [List.foldl_cons, ih]
    simp [List.mem_filter, and_assoc]

/-- C9: `_delete_pipeline_tables` removes from the cloned schema's table
collection exactly the tables whose name is planned for dropping, and bumps
the schema version exactly once for the whole call, however many tables are
removed. -/
theorem delete_pipeline_tables_spec (c : DropCommand) :
    c.deletePipelineTables.version = c.schema.version + 1 ∧
      ∀ t, t ∈ c.deletePipelineTables.tables ↔
        (t ∈ c.schema.tables ∧ t.name ∉ c.tables_to_drop.map Table.name) := by
  refine ⟨rfl, fun t => ?_⟩
  unfold DropCommand.deletePipelineTables
  rw [mem_foldl_filter_name]
  constructor
  · rintro ⟨h1, h2⟩
    refine ⟨h1, fun hmem => ?_⟩
    rcases List.mem_map.mp hmem with ⟨d, hd, hn⟩
    exact h2 d hd hn.symm
  · rintro ⟨h1, h2⟩
    exact ⟨h1, fun d hd hn => h2 (List.mem_map.mpr ⟨d, hd, hn.symm⟩)⟩

/-- C10: passing a bare string for `resources` or `state_paths` builds the
very same plan, and the `drop` helper behaves identically, as passing the
one-element collection holding that string. -/
theorem string_argument_singleton (p : Pipeline) (s ps : String) (sn : Option String)
    (da ssw : Bool) (w : World) :
    DropCommand.init p (.str s) sn (.str ps) da ssw =
      DropCommand.init p (.list [s]) sn (.list [ps]) da ssw
    ∧ drop p (.str s) sn (.str ps) da ssw w = drop p (.list [s]) sn (.list [ps]) da ssw w :=
  ⟨rfl, rfl⟩

theorem buildCmd_drop_all (p : Pipeline) (res sp : StrOrList) (da ssw : Bool) (s0 : Schema) :
    (buildCmd p res sp da ssw s0).drop_all = da := rfl

/-- C7: with `drop_all` requested (and no pending data), invoking the
command only drops the whole destination dataset, resets the pipeline's own
catalog metadata and resynchronizes — the destination table list is cleared
wholesale, while the selective machinery (state replacement, schema saving,
normalize/load) is skipped entirely; and two drop-all commands built over
the same pipeline and schema but arbitrary different resource/state-path
selector arguments behave identically. -/
theorem drop_all_bypasses (p : Pipeline) (res1 res2 : StrOrList) (sn : Option String)
    (sp1 sp2 : StrOrList) (ssw1 ssw2 : Bool) (c1 c2 : DropCommand) (w : World)
    (h1 : DropCommand.init p res1 sn sp1 true ssw1 = some c1)
    (h2 : DropCommand.init p res2 sn sp2 true ssw2 = some c2)
    (hp : w.pipeline.has_pending_data = false) :
    c1.call w = ({ w with
        destTables := []
        destDatasetDropped := true
        localDropped := true
        syncedDestination := true }, none)
    ∧ c2.call w = c1.call w := by
  obtain ⟨s0, hs0, rfl⟩ := init_some p res1 sn sp1 true ssw1 c1 h1
  obtain ⟨s1, hs1, rfl⟩ := init_some p res2 sn sp2 true ssw2 c2 h2
  unfold DropCommand.call
  rw [buildCmd_drop_all, buildCmd_drop_all, hp]
  simp [DropCommand.dropAllOp]

theorem drop_all_bypasses_witness :
    DropCommand.init pipeA (.list ["users"]) none (.list []) true false = some cmdAll1 ∧
      DropCommand.init pipeA (.list []) none (.list ["config.token"]) true true = some cmdAll2 ∧
      (mkWorld pipeA false).pipeline.has_pending_data = false ∧
      (cmdAll1.call (mkWorld pipeA false) =
        ({ mkWorld pipeA false with
            destTables := []
            destDatasetDropped := true
            localDropped := true
            syncedDestination := true }, none)
       ∧ cmdAll2.call (mkWorld pipeA false) = cmdAll1.call (mkWorld pipeA false)) :=
  ⟨rfl, rfl, rfl,
    drop_all_bypasses pipeA (.list ["users"]) (.list []) none (.list []) (.list ["config.token"])
      false true cmdAll1 cmdAll2 (mkWorld pipeA false) rfl rfl rfl⟩

/-- C8: if the forced load step raises, the call wipes the locally staged
normalized packages (so a retry does not re-submit a half-applied state
delta) and re-raises that same error to the caller instead of swallowing or
retrying it. -/
theorem load_failure_wipes_packages (c : DropCommand) (w : World)
    (hp : w.pipeline.has_pending_data = false)
    (hda : c.drop_all = false)
    (hsel : (c.drop_state || c.drop_tables) = true)
    (hfail : w.loadShouldFail = true) :
    (c.call w).2 = some .loadFailed ∧ (c.call w).1.stagedPackages = 0 := by
  unfold DropCommand.call
  rw [hp, hda]
  cases hds : c.drop_state with
  | false =>
    cases hdt : c.drop_tables with
    | false => rw [hds, hdt] at hsel; simp at hsel
    | true =>
      simp only [Bool.not_false, Bool.not_true, Bool.and_false, if_false, hds, hdt]
      simp [DropCommand.dropDestinationTables, hfail]
  | true =>
    cases hdt : c.drop_tables with
    | false =>
      simp only [Bool.not_false, Bool.not_true, Bool.false_and, if_false, hds, hdt]
      simp [DropCommand.dropStateKeys, hfail]
    | true =>
      simp only [Bool.not_false, Bool.not_true, Bool.and_false, if_false, hds, hdt]
      simp [DropCommand.dropStateKeys, DropCommand.dropDestinationTables, hfail]

theorem load_failure_wipes_packages_witness :
    (mkWorld pipeA true).pipeline.has_pending_data = false ∧
      cmdA.drop_all = false ∧
      (cmdA.drop_state || cmdA.drop_tables) = true ∧
      (mkWorld pipeA true).loadShouldFail = true ∧
      ((cmdA.call (mkWorld pipeA true)).2 = some .loadFailed ∧
        (cmdA.call (mkWorld pipeA true)).1.stagedPackages = 0) :=
  ⟨rfl, rfl, rfl, rfl, load_failure_wipes_packages cmdA (mkWorld pipeA true) rfl rfl rfl rfl⟩

/-- C6: with an empty resource selector the plan never touches tables:
`drop_tables` is false, the planned table list and its info record are
empty, and (outside the separate drop-all mode) a call leaves the
destination's tables and the saved schema untouched — even when state-path
drops were requested. -/
theorem empty_selector_drops_no_tables (p : Pipeline) (res : StrOrList) (sn : Option String)
    (sp : StrOrList) (ssw : Bool) (c : DropCommand) (w : World)
    (hinit : DropCommand.init p res sn sp false ssw = some c)
    (hres : res.toList = []) :
    c.drop_tables = false ∧ c.tables_to_drop = [] ∧ c.info.tables = [] ∧
      (c.call w).1.destTables = w.destTables ∧ (c.call w).1.savedSchema = w.savedSchema := by
  obtain ⟨s0, hs0, rfl⟩ := init_some p res sn sp false ssw c hinit
  have hempty : res.toList.isEmpty = true := by rw [hres]; rfl
  have hdt : (buildCmd p res sp false ssw s0).drop_tables = false := by
    simp [buildCmd, hempty]
  have htd : (buildCmd p res sp false ssw s0).tables_to_drop = [] := by
    simp [buildCmd, hempty]
  have hit : (buildCmd p res sp false ssw s0).info.tables = [] := by
    simp [buildCmd, hempty]
  have hcall : ((buildCmd p res sp false ssw s0).call w).1.destTables = w.destTables ∧
      ((buildCmd p res sp false ssw s0).call w).1.savedSchema = w.savedSchema := by
    unfold DropCommand.call
    cases hp : w.pipeline.has_pending_data with
    | true => simp [hp]
    | false =>
      rw [buildCmd_drop_all]
      cases hds : (buildCmd p res sp false ssw s0).drop_state with
      | false => simp [hp, hds, hdt]
      | true =>
        simp only [hp, hds, hdt, Bool.not_true, Bool.not_false, Bool.and_false,
          Bool.false_and, if_false, Bool.false_eq_true, ite_false]
        cases hl : w.loadShouldFail <;> simp [hl, DropCommand.dropStateKeys]
  exact ⟨hdt, htd, hit, hcall.1, hcall.2⟩

theorem empty_selector_drops_no_tables_witness :
    DropCommand.init pipeA (.list []) none (.list ["config.token"]) false false =
        some cmdEmptySel ∧
      (StrOrList.list []).toList = [] ∧
      (cmdEmptySel.drop_tables = false ∧ cmdEmptySel.tables_to_drop = [] ∧
        cmdEmptySel.info.tables = [] ∧
        (cmdEmptySel.call (mkWorld pipeA false)).1.destTables = (mkWorld pipeA false).destTables ∧
        (cmdEmptySel.call (mkWorld pipeA false)).1.savedSchema = (mkWorld pipeA false).savedSchema) :=
  ⟨rfl, rfl,
    empty_selector_drops_no_tables pipeA (.list []) none (.list ["config.token"]) false
      cmdEmptySel (mkWorld pipeA false) rfl rfl⟩

/-- C1: the modified state is computed as a pure function of the working
copy obtained from the pipeline's state (the live tree is not consulted
again nor written during planning), and the pipeline's managed state changes
during a (non-drop-all) call exactly by installing that precomputed working
copy wholesale when `drop_state` is set — otherwise it is left untouched. -/
theorem state_mutation_frame (p : Pipeline) (res : StrOrList) (sn : Option String)
    (sp : StrOrList) (ssw : Bool) (c : DropCommand) (w : World)
    (hinit : DropCommand.init p res sn sp false ssw = some c)
    (hp : w.pipeline.has_pending_data = false) :
    c.new_state = (createModifiedState true c.resource_pattern c.skip_state_wipe
        c.state_paths_to_drop p.state).state
    ∧ (c.call w).1.pipeline.state = (if c.drop_state then c.new_state else w.pipeline.state) := by
  obtain ⟨s0, hs0, rfl⟩ := init_some p res sn sp false ssw c hinit
  refine ⟨rfl, ?_⟩
  unfold DropCommand.call
  rw [buildCmd_drop_all]
  cases hds : (buildCmd p res sp false ssw s0).drop_state with
  | false =>
    cases hdt : (buildCmd p res sp false ssw s0).drop_tables with
    | false => simp [hp, hds, hdt]
    | true =>
      simp only [hp, hds, hdt, Bool.not_true, Bool.not_false, Bool.and_false,
        Bool.false_and, if_false, Bool.false_eq_true, ite_false]
      cases hl : w.loadShouldFail <;> simp [hl, DropCommand.dropDestinationTables]
  | true =>
    cases hdt : (buildCmd p res sp false ssw s0).drop_tables with
    | false =>
      simp only [hp, hds, hdt, Bool.not_true, Bool.not_false, Bool.false_and,
        if_false, Bool.false_eq_true, ite_false]
      cases hl : w.loadShouldFail <;> simp [hl, DropCommand.dropStateKeys]
    | true =>
      simp only [hp, hds, hdt, Bool.not_true, Bool.not_false, Bool.and_false,
        if_false, Bool.false_eq_true, ite_false]
      cases hl : w.loadShouldFail <;>
        simp [hl, DropCommand.dropStateKeys, DropCommand.dropDestinationTables]

theorem state_mutation_frame_witness :
    DropCommand.init pipeA (.list ["users"]) none (.list ["config.token"]) false false =
        some cmdState ∧
      (mkWorld pipeA false).pipeline.has_pending_data = false ∧
      (cmdState.new_state = (createModifiedState true cmdState.resource_pattern
          cmdState.skip_state_wipe cmdState.state_paths_to_drop pipeA.state).state
        ∧ (cmdState.call (mkWorld pipeA false)).1.pipeline.state =
            (if cmdState.drop_state then cmdState.new_state
             else (mkWorld pipeA false).pipeline.state)) :=
  ⟨rfl, rfl,
    state_mutation_frame pipeA (.list ["users"]) none (.list ["config.token"]) false
      cmdState (mkWorld pipeA false) rfl rfl⟩

/-- C4 (counterexample): with an empty selector and the state path `a`
which resolves nowhere in the single (empty) source node, the code sets
`drop_state = true` although no reset and no resolved path was recorded and
no state wipe with a non-empty selector was requested — refuting the
claimed `iff`. -/
theorem drop_state_claim_counterexample :
    DropCommand.init pipeD (.list []) none (.list ["a"]) false false = some cmdD ∧
      ¬ dropStateClaim cmdD (.list []) false := by
  refine ⟨rfl, fun h => ?_⟩
  rcases h.mp (by decide) with h1 | h1 | ⟨_, h2⟩
  · exact h1 (by decide)
  · exact h1 (by decide)
  · exact h2 rfl

/-- C4 (amended): `drop_state` is true iff the compiled state-path set is
non-empty, or the state wipe is active, i.e. `skip_state_wipe` was not
passed and a non-empty resource selector was supplied.  (The code keys the
flag on the *requested* paths, not on the paths actually resolved in the
state tree.) -/
theorem drop_state_flag (p : Pipeline) (res : StrOrList) (sn : Option String)
    (sp : StrOrList) (da ssw : Bool) (c : DropCommand)
    (hinit : DropCommand.init p res sn sp da ssw = some c) :
    dropStateAmended c res sp ssw := by
  obtain ⟨s0, hs0, rfl⟩ := init_some p res sn sp da ssw c hinit
  unfold dropStateAmended
  rcases hre : res.toList with _ | ⟨r, rl⟩ <;> rcases hsp : sp.toList with _ | ⟨q, ql⟩ <;>
    cases ssw <;> simp [buildCmd, compile_paths, hre, hsp]

theorem drop_state_flag_witness :
    DropCommand.init pipeD (.list []) none (.list ["a"]) false false = some cmdD ∧
      dropStateAmended cmdD (.list []) (.list ["a"]) false :=
  ⟨rfl, drop_state_flag pipeD (.list []) none (.list ["a"]) false false cmdD rfl⟩

/-- C3 (counterexample): with resource selector `r1` and state path
`r1.cursor` pointing inside the very resource being wiped, the code records
no resolved path at all (`info.state_paths = []`): resolution happened
*after* the reset removed `r1`, whereas resolving against the original
source node yields `s.r1.cursor` — refuting the claimed
resolve-before-reset order. -/
theorem resolve_order_counterexample :
    DropCommand.init pipeC (.list ["r1"]) none (.list ["r1.cursor"]) false false = some cmdC ∧
      ¬ resolvedAgainstOriginal cmdC pipeC.state := by
  refine ⟨rfl, ?_⟩
  unfold resolvedAgainstOriginal
  decide

theorem modifyStep_eq (pat : Option (List String)) (skip : Bool) (paths : List StatePath)
    (acc : List (String × StateVal) × List String × List String) (src : String × StateVal) :
    modifyStep pat skip paths acc src =
      (acc.1 ++ [(src.1, nodeAfterStateDrop pat skip paths src.2)],
       acc.2.1 ++ (if skip then [] else getMatchingResources (pat.getD []) src.2),
       acc.2.2 ++ (resolvedAfterReset pat skip paths src.2).map
         (fun q => src.1 ++ "." ++ pathStr q)) := by
  cases skip with
  | false => rfl
  | true => rfl

theorem modifyStep_foldl (pat : Option (List String)) (skip : Bool) (paths : List StatePath) :
    ∀ (l : List (String × StateVal)) (a : List (String × StateVal)) (b d : List String),
      l.foldl (modifyStep pat skip paths) (a, b, d) =
        (a ++ l.map (fun src => (src.1, nodeAfterStateDrop pat skip paths src.2)),
         b ++ (l.map (fun src =>
            if skip then [] else getMatchingResources (pat.getD []) src.2)).flatten,
         d ++ (l.map (fun src => (resolvedAfterReset pat skip paths src.2).map
            (fun q => src.1 ++ "." ++ pathStr q))).flatten) := by
  intro l
  induction l with
  | nil => intro a b d; simp
  | cons src l ih =>
    intro a b d
    rw [List.foldl_cons, modifyStep_eq, ih]
    simp

theorem createModifiedState_char (pat : Option (List String)) (skip : Bool)
    (paths : List StatePath) (st : TSourceState) :
    (createModifiedState true pat skip paths st).state.sources =
        st.sources.map (fun src => (src.1, nodeAfterStateDrop pat skip paths src.2))
    ∧ (createModifiedState true pat skip paths st).state_paths =
        (st.sources.map (fun src => (resolvedAfterReset pat skip paths src.2).map
          (fun q => src.1 ++ "." ++ pathStr q))).flatten
    ∧ (createModifiedState true pat skip paths st).resource_states =
        (st.sources.map (fun src =>
          if skip then [] else getMatchingResources (pat.getD []) src.2)).flatten := by
  unfold createModifiedState
  rw [if_neg (by simp)]
  rw [modifyStep_foldl]
  simp

/-- C3 (amended): for every source node of the state tree, the code first
applies the resource-state resets to the working copy, and only then
resolves the path selector — against the already-reset node — and applies
the path deletions to that same node; the recorded resource-state keys come
from the original node, and the recorded state paths are the
source-qualified resolutions against the post-reset node. -/
theorem modified_state_resolves_after_reset (p : Pipeline) (res : StrOrList)
    (sn : Option String) (sp : StrOrList) (da ssw : Bool) (c : DropCommand)
    (hinit : DropCommand.init p res sn sp da ssw = some c) :
    modifiedStateSpec c p.state := by
  obtain ⟨s0, hs0, rfl⟩ := init_some p res sn sp da ssw c hinit
  exact ⟨(createModifiedState_char _ _ _ _).1, (createModifiedState_char _ _ _ _).2.1,
         (createModifiedState_char _ _ _ _).2.2⟩

theorem modified_state_resolves_after_reset_witness :
    DropCommand.init pipeC (.list ["r1"]) none (.list ["r1.cursor"]) false false = some cmdC ∧
      modifiedStateSpec cmdC pipeC.state :=
  ⟨rfl, modified_state_resolves_after_reset pipeC (.list ["r1"]) none (.list ["r1.cursor"])
    false false cmdC rfl⟩

theorem mem_flatten_insertGroup (r : String) (ts : List Table) (x : Table) :
    ∀ acc : List (String × List Table),
      (x ∈ ((insertGroup acc r ts).map Prod.snd).flatten ↔
        x ∈ (acc.map Prod.snd).flatten ∨ x ∈ ts) := by
  intro acc
  induction acc with
  | nil => simp [insertGroup]
  | cons kv rest ih =>
    obtain ⟨k, v⟩ := kv
    unfold insertGroup
    by_cases hk : k = r
    · rw [if_pos hk]
      simp only [List.map_cons, List.flatten_cons, List.mem_append]
      tauto
    · rw [if_neg hk]
      simp only [List.map_cons, List.flatten_cons, List.mem_append, ih]
      tauto

theorem mem_group_foldl (tables : List Table) (pat : List String) (x : Table) :
    ∀ (l : List Table) (acc : List (String × List Table)),
      (x ∈ ((l.foldl (groupStep tables pat) acc).map Prod.snd).flatten ↔
        x ∈ (acc.map Prod.snd).flatten ∨
          ∃ t r, t ∈ l ∧ t.resource = some r ∧ patternMatch pat r = true ∧
            x ∈ get_child_tables tables t) := by
  intro l
  induction l with
  | nil => intro acc; simp
  | cons t l ih =>
    intro acc
    rw [List.foldl_cons, ih]
    have hstep : x ∈ ((groupStep tables pat acc t).map Prod.snd).flatten ↔
        x ∈ (acc.map Prod.snd).flatten ∨
          (∃ r, t.resource = some r ∧ patternMatch pat r = true ∧
            x ∈ get_child_tables tables t) := by
      unfold groupStep
      cases ht : t.resource with
      | none => simp
      | some r0 =>
        by_cases hm : patternMatch pat r0 = true
        · simp only [hm, if_true]
          rw [mem_flatten_insertGroup]
          simp [hm]
        · simp [hm]
    rw [hstep]
    constructor
    · rintro ((h | ⟨r, hres, hm, hx⟩) | ⟨u, r, hu, hres, hm, hx⟩)
      · exact Or.inl h
      · exact Or.inr ⟨t, r, List.mem_cons_self t l, hres, hm, hx⟩
      · exact Or.inr ⟨u, r, List.mem_cons_of_mem t hu, hres, hm, hx⟩
    · rintro (h | ⟨u, r, hu, hres, hm, hx⟩)
      · exact Or.inl (Or.inl h)
      · rcases List.mem_cons.mp hu with rfl | hu
        · exact Or.inl (Or.inr ⟨r, hres, hm, hx⟩)
        · exact Or.inr ⟨u, r, hu, hres, hm, hx⟩

theorem mem_planTables (tables : List Table) (pat : List String) (x : Table) :
    x ∈ planTables tables pat ↔ ownedByMatching tables pat x := by
  unfold planTables group_tables_by_resource ownedByMatching
  rw [List.mem_reverse, mem_group_foldl]
  simp

theorem parentsBefore_mono (l : List Table) :
    ∀ (s1 s2 : List String), (∀ x ∈ s1, x ∈ s2) →
      parentsBefore s1 l → parentsBefore s2 l := by
  induction l with
  | nil => intro s1 s2 _ _; trivial
  | cons t rest ih =>
    intro s1 s2 hss h
    obtain ⟨h1, h2⟩ := h
    refine ⟨fun pn hpn => hss _ (h1 pn hpn), ih _ _ ?_ h2⟩
    intro x hx
    rcases List.mem_cons.mp hx with h | h
    · exact List.mem_cons.mpr (Or.inl h)
    · exact List.mem_cons.mpr (Or.inr (hss _ h))

theorem parentsBefore_append (l1 l2 : List Table) :
    ∀ s, parentsBefore s l1 → parentsBefore (l1.map Table.name ++ s) l2 →
      parentsBefore s (l1 ++ l2) := by
  induction l1 with
  | nil => intro s _ h2; simpa using h2
  | cons t l1 ih =>
    intro s h1 h2
    obtain ⟨ha, hb⟩ := h1
    refine ⟨ha, ih _ hb (parentsBefore_mono l2 _ _ ?_ h2)⟩
    intro x hx
    simp only [List.map_cons, List.cons_append, List.mem_cons, List.mem_append] at hx ⊢
    tauto

theorem parentsBefore_childChain (tables : List Table) :
    ∀ (fuel : Nat) (n : String) (s : List String), n ∈ s →
      parentsBefore s (childChain tables fuel n) := by
  intro fuel
  induction fuel with
  | zero => intro n s _; trivial
  | succ fuel ih =>
    intro n s hn
    rw [childChain]
    have haux : ∀ cs : List Table, (∀ c ∈ cs, c.parent = some n) →
        ∀ s1, n ∈ s1 →
          parentsBefore s1 (cs.flatMap (fun c => c :: childChain tables fuel c.name)) := by
      intro cs
      induction cs with
      | nil => intro _ s1 _; simp only [List.flatMap_nil]; trivial
      | cons c cs ihc =>
        intro hcs s1 hs1
        rw [List.flatMap_cons]
        apply parentsBefore_append
        · refine ⟨fun pn hpn => ?_, ih c.name _ (List.mem_cons_self _ _)⟩
          rw [hcs c (List.mem_cons_self _ _)] at hpn
          injection hpn with h
          rw [← h]
          exact hs1
        · apply ihc (fun u hu => hcs u (List.mem_cons_of_mem c hu))
          simp only [List.map_cons, List.cons_append, List.mem_cons, List.mem_append]
          tauto
    apply haux
    · intro c hc
      have := (List.mem_filter.mp hc).2
      simpa using this
    · exact hn

theorem parentsBefore_chain (tables : List Table) (t : Table) (hroot : t.parent = none) :
    ∀ s, parentsBefore s (get_child_tables tables t) := by
  intro s
  rw [get_child_tables]
  refine ⟨fun pn hpn => ?_, parentsBefore_childChain tables _ _ _ (List.mem_cons_self _ _)⟩
  rw [hroot] at hpn
  cases hpn

theorem insertGroup_inv (r : String) (ts : List Table)
    (hts : ∀ s, parentsBefore s ts) :
    ∀ (acc : List (String × List Table)),
      (∀ g ∈ acc, ∀ s, parentsBefore s g.2) →
      ∀ g ∈ insertGroup acc r ts, ∀ s, parentsBefore s g.2 := by
  intro acc
  induction acc with
  | nil =>
    intro _ g hg s
    simp only [insertGroup, List.mem_singleton] at hg
    rw [hg]
    exact hts s
  | cons kv rest ih =>
    intro hacc g hg s
    obtain ⟨k, v⟩ := kv
    unfold insertGroup at hg
    by_cases hk : k = r
    · rw [if_pos hk] at hg
      rcases List.mem_cons.mp hg with rfl | hg
      · exact parentsBefore_append v ts s (hacc (k, v) (List.mem_cons_self _ _) s)
          (hts _)
      · exact hacc g (List.mem_cons_of_mem _ hg) s
    · rw [if_neg hk] at hg
      rcases List.mem_cons.mp hg with rfl | hg
      · exact hacc (k, v) (List.mem_cons_self _ _) s
      · exact ih (fun u hu => hacc u (List.mem_cons_of_mem _ hu)) g hg s

theorem groups_inv (tables : List Table) (pat : List String)
    (hroots : ∀ t ∈ tables, t.resource.isSome = true → t.parent = none) :
    ∀ (l : List Table) (acc : List (String × List Table)),
      (∀ t ∈ l, t ∈ tables) →
      (∀ g ∈ acc, ∀ s, parentsBefore s g.2) →
      ∀ g ∈ l.foldl (groupStep tables pat) acc, ∀ s, parentsBefore s g.2 := by
  intro l
  induction l with
  | nil => intro acc _ hacc; simpa using hacc
  | cons t l ih =>
    intro acc hl hacc
    rw [List.foldl_cons]
    apply ih _ (fun u hu => hl u (List.mem_cons_of_mem t hu))
    intro g hg s
    unfold groupStep at hg
    split at hg
    · exact hacc g hg s
    · next r heq =>
        split at hg
        · next hm =>
            have hchain : ∀ s1, parentsBefore s1 (get_child_tables tables t) :=
              parentsBefore_chain tables t
                (hroots t (hl t (List.mem_cons_self _ _)) (by rw [heq]; rfl))
            exact insertGroup_inv r _ hchain acc hacc g hg s
        · exact hacc g hg s

theorem parentsBefore_flatten_groups :
    ∀ (groups : List (String × List Table)),
      (∀ g ∈ groups, ∀ s, parentsBefore s g.2) →
      ∀ s, parentsBefore s ((groups.map Prod.snd).flatten) := by
  intro groups
  induction groups with
  | nil => intro _ s; trivial
  | cons g rest ih =>
    intro h s
    rw [List.map_cons, List.flatten_cons]
    exact parentsBefore_append _ _ _ (h g (List.mem_cons_self _ _) s)
      (ih (fun u hu => h u (List.mem_cons_of_mem _ hu)) _)

theorem parentsFollowAux_snoc (t : Table) :
    ∀ (xs : List Table) (pending : List String),
      parentsFollowAux pending (xs ++ [t]) ↔
        ((∀ pn, t.parent = some pn → pn ∈ pending) ∧
          parentsFollowAux (t.name :: pending) xs) := by
  intro xs
  induction xs with
  | nil =>
    intro pending
    simp [parentsFollowAux]
  | cons x xs ih =>
    intro pending
    rw [List.cons_append]
    show ((∀ pn, x.parent = some pn → pn ∈ (xs ++ [t]).map Table.name ++ pending) ∧
        parentsFollowAux pending (xs ++ [t])) ↔ _
    rw [ih]
    simp only [List.map_append, List.map_cons, List.map_nil, List.append_assoc,
      List.singleton_append]
    show _ ↔ ((∀ pn, t.parent = some pn → pn ∈ pending) ∧
      (∀ pn, x.parent = some pn → pn ∈ xs.map Table.name ++ t.name :: pending) ∧
      parentsFollowAux (t.name :: pending) xs)
    tauto

theorem parentsBefore_reverse (l : List Table) :
    ∀ s, parentsBefore s l → parentsFollowAux s l.reverse := by
  induction l with
  | nil => intro s _; trivial
  | cons t rest ih =>
    intro s h
    obtain ⟨h1, h2⟩ := h
    rw [List.reverse_cons, parentsFollowAux_snoc]
    exact ⟨h1, ih _ h2⟩

/-- C5: for every selector set, the planned table list contains exactly the
tables owned by a matching resource (matching root tables together with
their child chains), and it is in reverse dependency order: every planned
table's parent occurs strictly later in the list, so children and derived
tables are dropped before the tables they depend on.  (Requires the schema
sanity property that resource-tagged root tables are not themselves child
tables.)  Instantiated by the witness at Scenario A, where selector
`{"users"}` plans `users__addresses` before `users`. -/
theorem plan_tables_exact_and_ordered (p : Pipeline) (res : StrOrList) (sn : Option String)
    (sp : StrOrList) (da ssw : Bool) (c : DropCommand)
    (hinit : DropCommand.init p res sn sp da ssw = some c)
    (hroots : rootsOkB c.schema.tables = true) :
    planCharacterization c (compile_simple_regexes res.toList) := by
  obtain ⟨s0, hs0, rfl⟩ := init_some p res sn sp da ssw c hinit
  unfold planCharacterization
  unfold rootsOkB at hroots
  have hroots2 : ∀ t ∈ s0.tables, t.resource.isSome = true → t.parent = none := by
    intro t ht hres
    have hall := List.all_eq_true.mp hroots t ht
    rcases Bool.or_eq_true_iff.mp hall with h | h
    · rw [Option.isNone_iff_eq_none] at h
      rw [h] at hres
      cases hres
    · exact Option.isNone_iff_eq_none.mp h
  by_cases hre : res.toList.isEmpty
  · have hnil : res.toList = [] := by
      cases h : res.toList with
      | nil => rfl
      | cons a l => rw [h] at hre; cases hre
    have htd : (buildCmd p res sp da ssw s0).tables_to_drop = [] := by
      simp [buildCmd, hre]
    rw [htd]
    constructor
    · intro x
      simp [ownedByMatching, patternMatch, compile_simple_regexes, hnil]
    · trivial
  · have htd : (buildCmd p res sp da ssw s0).tables_to_drop =
        planTables s0.tables (compile_simple_regexes res.toList) := by
      simp only [buildCmd, hre]
      rw [if_neg (by simp [hre])]
      rfl
    rw [htd]
    constructor
    · intro x
      exact mem_planTables s0.tables _ x
    · unfold planTables parentsFollow group_tables_by_resource
      apply parentsBefore_reverse
      apply parentsBefore_flatten_groups
      exact groups_inv s0.tables _ hroots2 s0.tables [] (fun t ht => ht)
        (fun g hg => absurd hg (List.not_mem_nil g))

theorem plan_tables_exact_and_ordered_witness :
    DropCommand.init pipeA (.list ["users"]) none (.list []) false false = some cmdA ∧
      rootsOkB cmdA.schema.tables = true ∧
      planCharacterization cmdA (compile_simple_regexes (StrOrList.list ["users"]).toList) ∧
      cmdA.tables_to_drop.map Table.name = ["users__addresses", "users"] :=
  ⟨rfl, rfl,
    plan_tables_exact_and_ordered pipeA (.list ["users"]) none (.list []) false false cmdA
      rfl rfl,
    rfl⟩
